import Mathlib

/-!
# Verification of the better-recs aggregation and recommendation pipeline

Shallow embedding of the playlist-recommendation service:

* src/src/services/lastfmService.js — weighted similar-artist aggregation
  (the current aggregation core);
* src/unnamed/part_002 — the older, unweighted aggregation
  (combinedScore = frequency × averageMatch);
* src/unnamed/part_000 — spotifyService.getPlaylistArtists (per-playlist
  dedup of artists by id);
* src/unnamed/part_001 — recommendationEngine.getRecommendationsFromMultiple
  (playlist weight normalization, seed-artist weight accumulation,
  self-recommendation / minFrequency filtering, truncation);
* src/unnamed/part_003 — the POST /api/recommendations/multiple route
  (request validation).

Real numbers of the JavaScript source are modelled as rationals (`Rat`),
so every arithmetic claim is settled exactly.  JavaScript `Map`s are
modelled as insertion-ordered association lists, matching the guaranteed
iteration order of `Map`.  Network calls (Spotify playlist fetch, Last.fm
similarity lookup) are modelled as oracle functions passed explicitly:
the playlist fetch may fail (`Except`), the similarity lookup never fails
(`getSimilarArtists` degrades to an empty list on any error).
-/

namespace BetterRecs

/-- A raw similar artist returned by one similarity lookup
(lastfmService.getSimilarArtists result entry): name and match score.
The JS field is called `match`, a reserved word in Lean. -/
structure SimilarArtist where
  name : String
  matchScore : Rat
  deriving Repr, DecidableEq

/-- A seed artist as passed to getSimilarArtistsForMultiple:
`{ name, weight }`. -/
structure WeightedArtist where
  name : String
  weight : Rat
  deriving Repr, DecidableEq

/-- getSimilarArtistsForMultiple accepts either bare artist-name strings or
`{ name, weight }` objects (the `typeof a === 'string'` test in the source). -/
inductive ArtistInput where
  | str (name : String)
  | weighted (a : WeightedArtist)
  deriving Repr, DecidableEq

/-- The per-candidate accumulator record stored in the `artistData` map of
lastfmService.getSimilarArtistsForMultiple:
`{ frequency, weightedScoreSum, scores }`. -/
structure AccumData where
  frequency : Nat
  weightedScoreSum : Rat
  scores : List Rat
  deriving Repr, DecidableEq

/-- An aggregated candidate as returned by getSimilarArtistsForMultiple:
`{ name, frequency, averageMatch, combinedScore }`. -/
structure AggregatedArtist where
  name : String
  frequency : Nat
  averageMatch : Rat
  combinedScore : Rat
  deriving Repr, DecidableEq

/-- JavaScript `String.prototype.toLowerCase()`, used for the
case-insensitive self-recommendation filter: lowercase every character. -/
def toLowerCase (s : String) : String :=
  ⟨s.data.map Char.toLower⟩

namespace LastFmService

/-- `artists = artistsWithWeights.map(a => typeof a === 'string'
? { name: a, weight: 1 / artistsWithWeights.length } : a)`
(lastfmService.js line 58). -/
def normalizeArtistInput (artistsWithWeights : List ArtistInput) : List WeightedArtist :=
  artistsWithWeights.map fun a =>
    match a with
    | .str s => ⟨s, 1 / (artistsWithWeights.length : Rat)⟩
    | .weighted w => w

/-- The list of artist names passed to `getSimilarArtists`, one per element of
`artists` (`artists.map(a => this.getSimilarArtists(a.name))`, line 63):
this models the sequence of similarity-lookup calls issued by the fan-out. -/
def fanOutNames (artists : List WeightedArtist) : List String :=
  artists.map fun a => a.name

/-- One iteration of the inner `similarArtists.forEach` loop
(lastfmService.js lines 72-88): find the exact-name key in the `artistData`
map (creating it if absent), then `frequency += 1`,
`weightedScoreSum += similar.match * seedWeight`, `scores.push(similar.match)`.
The association list keeps the `Map`'s insertion order. -/
def accumStep (seedWeight : Rat) (m : List (String × AccumData))
    (similar : SimilarArtist) : List (String × AccumData) :=
  match m with
  | [] =>
      [(similar.name,
        ⟨1, similar.matchScore * seedWeight, [similar.matchScore]⟩)]
  | (k, d) :: rest =>
      if k = similar.name then
        (k, ⟨d.frequency + 1,
             d.weightedScoreSum + similar.matchScore * seedWeight,
             d.scores ++ [similar.matchScore]⟩) :: rest
      else
        (k, d) :: accumStep seedWeight rest similar

/-- The inner `similarArtists.forEach` loop over one seed's lookup result. -/
def accumSeed (seedWeight : Rat) (m : List (String × AccumData))
    (similarArtists : List SimilarArtist) : List (String × AccumData) :=
  similarArtists.foldl (accumStep seedWeight) m

/-- The outer `results.forEach((similarArtists, index) => ...)` loop
(lastfmService.js lines 69-89): `results` is the list of lookup results,
aligned index-by-index with `artists` (Promise.all preserves order). -/
def accumAll (lookup : String → List SimilarArtist)
    (artists : List WeightedArtist) : List (String × AccumData) :=
  (artists.zip ((fanOutNames artists).map lookup)).foldl
    (fun m p => accumSeed p.1.weight m p.2) []

/-- Build one output record from a map entry (lastfmService.js lines 92-102):
`avgScore = scores.reduce((a,b) => a+b, 0) / scores.length`,
`combinedScore = weightedScoreSum`. -/
def toAggregated (e : String × AccumData) : AggregatedArtist :=
  ⟨e.1, e.2.frequency, e.2.scores.sum / (e.2.scores.length : Rat),
   e.2.weightedScoreSum⟩

end LastFmService

/-- Stable insertion of one element into a list already sorted by descending
`combinedScore`: the element goes before the first entry whose score is ≤ its
own, after every entry with a strictly greater score.  Any stable sort is a
faithful model of JavaScript
`aggregatedArtists.sort((a, b) => b.combinedScore - a.combinedScore)`
(Array.prototype.sort is stable). -/
def insertDesc (x : AggregatedArtist) :
    List AggregatedArtist → List AggregatedArtist
  | [] => [x]
  | y :: ys =>
      if y.combinedScore ≤ x.combinedScore then x :: y :: ys
      else y :: insertDesc x ys

/-- Stable sort by descending `combinedScore`, the final step of both
aggregation functions. -/
def sortByCombinedScoreDesc (l : List AggregatedArtist) : List AggregatedArtist :=
  l.foldr insertDesc []

namespace LastFmService

/-- lastfmService.getSimilarArtistsForMultiple (the current, weighted
aggregation, src/src/services/lastfmService.js lines 56-106), with the
per-artist similarity lookup supplied as an oracle. -/
def getSimilarArtistsForMultiple (lookup : String → List SimilarArtist)
    (artistsWithWeights : List ArtistInput) : List AggregatedArtist :=
  let artists := normalizeArtistInput artistsWithWeights
  sortByCombinedScoreDesc ((accumAll lookup artists).map toAggregated)

end LastFmService

namespace LastFmServiceOld

/-- The per-candidate accumulator of the older aggregation
(src/unnamed/part_002): the two parallel maps `artistFrequency` and
`artistScores`, which share the same key set and insertion order, are
modelled as one association list of `{ frequency, scores }` records. -/
structure OldAccum where
  frequency : Nat
  scores : List Rat
  deriving Repr, DecidableEq

/-- One iteration of `allSimilarArtists.forEach` (part_002 lines 65-75):
`artistFrequency.set(name, get(name) + 1)`, `artistScores.get(name).push(match)`,
creating the entry on first sight. -/
def oldAccumStep (m : List (String × OldAccum))
    (artist : SimilarArtist) : List (String × OldAccum) :=
  match m with
  | [] => [(artist.name, ⟨1, [artist.matchScore]⟩)]
  | (k, d) :: rest =>
      if k = artist.name then
        (k, ⟨d.frequency + 1, d.scores ++ [artist.matchScore]⟩) :: rest
      else
        (k, d) :: oldAccumStep rest artist

/-- The older getSimilarArtistsForMultiple (src/unnamed/part_002 lines 52-93):
flatten all lookup results, count frequency and collect scores per exact name,
then `combinedScore = frequency * avgScore`, sorted descending. -/
def getSimilarArtistsForMultiple (lookup : String → List SimilarArtist)
    (artistNames : List String) : List AggregatedArtist :=
  let allSimilarArtists := (artistNames.map lookup).flatten
  let m := allSimilarArtists.foldl oldAccumStep []
  sortByCombinedScoreDesc (m.map fun e =>
    let avgScore := e.2.scores.sum / (e.2.scores.length : Rat)
    ⟨e.1, e.2.frequency, avgScore, (e.2.frequency : Rat) * avgScore⟩)

end LastFmServiceOld

/-- An artist as resolved from a Spotify playlist: `{ id, name }`
(spotifyService.js / src/unnamed/part_000). -/
structure Artist where
  id : String
  name : String
  deriving Repr, DecidableEq

/-- A playlist track: `{ name, artists }` (part_000 lines 94-100). -/
structure Track where
  name : String
  artists : List Artist
  deriving Repr, DecidableEq

namespace SpotifyService

/-- One step of the dedup loop in getPlaylistArtists (part_000 lines 119-125):
`if (!artistMap.has(artist.id)) artistMap.set(artist.id, artist)`. -/
def addArtist (m : List Artist) (artist : Artist) : List Artist :=
  if m.any fun a => a.id = artist.id then m else m ++ [artist]

/-- spotifyService.getPlaylistArtists (src/unnamed/part_000 lines 113-128)
applied to already-fetched tracks: flatten all track artists and keep the
first occurrence of each artist id (`Map` insertion order). -/
def getPlaylistArtists (tracks : List Track) : List Artist :=
  tracks.foldl (fun m t => t.artists.foldl addArtist m) []

end SpotifyService

/-- A playlist reference in the body of getRecommendationsFromMultiple:
either a bare URL string or a `{ url, weight }` object (part_001 line 71). -/
inductive PlaylistInput where
  | url (u : String)
  | weighted (u : String) (w : Rat)
  deriving Repr, DecidableEq

/-- A playlist with its (possibly normalized) weight. -/
structure WeightedPlaylist where
  url : String
  weight : Rat
  deriving Repr, DecidableEq

/-- A seed artist held in `artistWeightMap` of part_001:
`{ ...artist, weight }`. -/
structure SeedArtist where
  id : String
  name : String
  weight : Rat
  deriving Repr, DecidableEq

/-- The options object `{ limit, minFrequency }`.  `none` models an absent
(undefined) field; JavaScript treats `0` and `undefined` alike under
`options.limit || 20`, but differently under destructuring defaults. -/
structure Options where
  limit : Option Nat
  minFrequency : Option Nat
  deriving Repr, DecidableEq

/-- JavaScript `x || d` for an optional numeric field: undefined or 0
(falsy) gives the default. -/
def jsOrNat (x : Option Nat) (d : Nat) : Nat :=
  match x with
  | none => d
  | some n => if n = 0 then d else n

/-- Result shape of getRecommendationsFromMultiple (part_001 lines 125-130).
playlistWeights holds `Math.round(p.weight * 100)` per playlist. -/
structure EngineResult where
  seedArtists : List Artist
  playlistWeights : List (String × Int)
  recommendations : List AggregatedArtist
  totalFound : Nat
  deriving Repr, DecidableEq

/-- Result shape of the single-playlist getRecommendations
(part_001 lines 50-54). -/
structure SingleResult where
  seedArtists : List Artist
  recommendations : List AggregatedArtist
  totalFound : Nat
  deriving Repr, DecidableEq

namespace RecommendationEngine

open SpotifyService LastFmService

/-- `playlists.map(p => typeof p === 'string'
? { url: p, weight: 100 / playlists.length } : p)` (part_001 lines 71-76). -/
def toWeightedPlaylists (playlists : List PlaylistInput) : List WeightedPlaylist :=
  playlists.map fun p =>
    match p with
    | .url u => ⟨u, 100 / (playlists.length : Rat)⟩
    | .weighted u w => ⟨u, w⟩

/-- Weight normalization (part_001 lines 78-82): divide every playlist weight
by the total.  (In `Rat`, division by a zero total yields 0 where JavaScript
yields NaN; in both models the normalized weights fail to sum to 1.) -/
def normalizePlaylistWeights (l : List WeightedPlaylist) : List WeightedPlaylist :=
  let totalWeight := (l.map fun p => p.weight).sum
  l.map fun p => ⟨p.url, p.weight / totalWeight⟩

/-- One step of the seed accumulation loop (part_001 lines 92-102): if the
artist id is already in `artistWeightMap`, add the playlist weight to the
existing entry, else insert `{ ...artist, weight: playlist.weight }`. -/
def addSeed (w : Rat) : List SeedArtist → Artist → List SeedArtist
  | [], artist => [⟨artist.id, artist.name, w⟩]
  | s :: rest, artist =>
      if s.id = artist.id then
        ⟨s.id, s.name, s.weight + w⟩ :: rest
      else
        s :: addSeed w rest artist

/-- The playlist loop of part_001 (lines 88-103): fetch each playlist's
tracks (propagating fetch failure, as spotifyService.getPlaylistArtists
throws), dedup artists per playlist, and accumulate seed weights by id. -/
def buildSeedMap (fetch : String → Except String (List Track)) :
    List WeightedPlaylist → List SeedArtist → Except String (List SeedArtist)
  | [], m => .ok m
  | p :: ps, m =>
      match fetch p.url with
      | .error e => .error e
      | .ok tracks =>
          buildSeedMap fetch ps ((getPlaylistArtists tracks).foldl (addSeed p.weight) m)

/-- The artist list a successful fetch of one playlist resolves to. -/
def fetchedArtists (fetch : String → Except String (List Track)) (u : String) :
    List Artist :=
  match fetch u with
  | .error _ => []
  | .ok tracks => getPlaylistArtists tracks

/-- The shared filter step (part_001 lines 40-45 and 116-121): drop
candidates whose lowercased name equals any seed name's lowercase form, or
whose frequency is below the effective minFrequency. -/
def filterCandidates (seedNames : List String) (minFrequencyEff : Nat)
    (similarArtists : List AggregatedArtist) : List AggregatedArtist :=
  let seedNamesLower := seedNames.map fun n => toLowerCase n
  similarArtists.filter fun artist =>
    toLowerCase artist.name ∉ seedNamesLower ∧ minFrequencyEff ≤ artist.frequency

/-- The filtered candidate list of getRecommendationsFromMultiple
(part_001 lines 108-121): aggregate with the seed weights, then apply the
self-recommendation and `artist.frequency >= (options.minFrequency || 1)`
filters. -/
def engineFiltered (lookup : String → List SimilarArtist)
    (uniqueArtists : List SeedArtist) (minFrequency : Option Nat) :
    List AggregatedArtist :=
  let weightedArtists := uniqueArtists.map fun a =>
    ArtistInput.weighted ⟨a.name, a.weight⟩
  let similarArtists := getSimilarArtistsForMultiple lookup weightedArtists
  filterCandidates (uniqueArtists.map fun a => a.name) (jsOrNat minFrequency 1)
    similarArtists

/-- recommendationEngine.getRecommendationsFromMultiple
(src/unnamed/part_001 lines 69-131), with the Spotify playlist fetch and the
Last.fm similarity lookup supplied as oracles. -/
def getRecommendationsFromMultiple (fetch : String → Except String (List Track))
    (lookup : String → List SimilarArtist) (playlists : List PlaylistInput)
    (options : Options) : Except String EngineResult :=
  let playlistsWithWeights := normalizePlaylistWeights (toWeightedPlaylists playlists)
  match buildSeedMap fetch playlistsWithWeights [] with
  | .error e => .error e
  | .ok uniqueArtists =>
      let filtered := engineFiltered lookup uniqueArtists options.minFrequency
      .ok { seedArtists := uniqueArtists.map fun a => ⟨a.id, a.name⟩
            playlistWeights := playlistsWithWeights.map fun p =>
              (p.url, round (p.weight * 100))
            recommendations := filtered.take (jsOrNat options.limit 20)
            totalFound := filtered.length }

/-- recommendationEngine.getRecommendations, the single-playlist path
(part_001 lines 19-59).  Destructuring defaults `limit = 20` and
`minFrequency = 1` apply only when the fields are undefined (`Option.getD`);
seed artists are passed to Last.fm as bare name strings. -/
def getRecommendations (fetch : String → Except String (List Track))
    (lookup : String → List SimilarArtist) (playlistUrl : String)
    (options : Options) : Except String SingleResult :=
  match fetch playlistUrl with
  | .error e => .error e
  | .ok tracks =>
      let seedArtists := getPlaylistArtists tracks
      let seedArtistNames := seedArtists.map fun a => a.name
      let similarArtists := getSimilarArtistsForMultiple lookup
        (seedArtistNames.map ArtistInput.str)
      let filtered := filterCandidates seedArtistNames
        (options.minFrequency.getD 1) similarArtists
      .ok { seedArtists := seedArtists
            recommendations := filtered.take (options.limit.getD 20)
            totalFound := filtered.length }

end RecommendationEngine

/-- Request body of POST /api/recommendations/multiple
(src/unnamed/part_003 lines 146-167): `playlistUrls` and `playlists` may each
be absent. -/
structure MultipleBody where
  playlistUrls : Option (List String)
  playlists : Option (List PlaylistInput)
  limit : Option Nat
  minFrequency : Option Nat
  deriving Repr, DecidableEq

/-- HTTP outcome of the route: 200 with the engine result, 400 on
validation failure, 500 when the engine throws. -/
inductive RouteResponse where
  | ok (r : EngineResult)
  | badRequest (error : String)
  | serverError (error : String)
  deriving Repr, DecidableEq

namespace Routes

/-- The input-selection logic of the route (part_003 lines 150-162):
prefer a non-empty `playlists` array, fall back to a non-empty
`playlistUrls` array, otherwise reject. -/
def selectPlaylistInput (body : MultipleBody) : Option (List PlaylistInput) :=
  match body.playlists with
  | some ps =>
      if ps.length > 0 then some ps
      else
        match body.playlistUrls with
        | some us => if us.length > 0 then some (us.map PlaylistInput.url) else none
        | none => none
  | none =>
      match body.playlistUrls with
      | some us => if us.length > 0 then some (us.map PlaylistInput.url) else none
      | none => none

/-- POST /api/recommendations/multiple (src/unnamed/part_003 lines 146-176):
validate, call the engine, map a thrown error to status 500. -/
def postRecommendationsMultiple (fetch : String → Except String (List Track))
    (lookup : String → List SimilarArtist) (body : MultipleBody) : RouteResponse :=
  match selectPlaylistInput body with
  | none =>
      .badRequest "Either playlistUrls array or playlists array with weights is required"
  | some input =>
      match RecommendationEngine.getRecommendationsFromMultiple fetch lookup input
        ⟨body.limit, body.minFrequency⟩ with
      | .ok r => .ok r
      | .error e => .serverError e

end Routes

/-! ## Helper lemmas: the stable sort -/

theorem insertDesc_perm (x : AggregatedArtist) (l : List AggregatedArtist) :
    (insertDesc x l).Perm (x :: l) := by
  induction l with
  | nil => simp [insertDesc]
  | cons y ys ih =>
      unfold insertDesc
      by_cases h : y.combinedScore ≤ x.combinedScore
      · simp [h]
      · simp only [h, if_false]
        exact (ih.cons y).trans (List.Perm.swap x y ys)

theorem sortByCombinedScoreDesc_perm (l : List AggregatedArtist) :
    (sortByCombinedScoreDesc l).Perm l := by
  induction l with
  | nil => simp [sortByCombinedScoreDesc]
  | cons x xs ih =>
      simpa [sortByCombinedScoreDesc] using
        (insertDesc_perm x (sortByCombinedScoreDesc xs)).trans (ih.cons x)

theorem mem_sortByCombinedScoreDesc {a : AggregatedArtist} {l : List AggregatedArtist} :
    a ∈ sortByCombinedScoreDesc l ↔ a ∈ l :=
  (sortByCombinedScoreDesc_perm l).mem_iff

/-! ## Helper lemmas: keys of the aggregation map -/

namespace LastFmService

theorem accumStep_keys (w : Rat) (m : List (String × AccumData)) (s : SimilarArtist) :
    (accumStep w m s).map Prod.fst =
      if s.name ∈ m.map Prod.fst then m.map Prod.fst
      else m.map Prod.fst ++ [s.name] := by
  induction m with
  | nil => simp [accumStep]
  | cons e rest ih =>
      obtain ⟨k, d⟩ := e
      by_cases h : k = s.name
      · simp [accumStep, h]
      · have hne : s.name ≠ k := fun hh => h hh.symm
        simp only [accumStep, h, if_false, List.map_cons, List.mem_cons, hne,
          false_or, ih]
        by_cases hm : s.name ∈ rest.map Prod.fst <;> simp [hm]

theorem accumStep_keys_nodup {m : List (String × AccumData)}
    (h : (m.map Prod.fst).Nodup) (w : Rat) (s : SimilarArtist) :
    ((accumStep w m s).map Prod.fst).Nodup := by
  rw [accumStep_keys]
  by_cases hm : s.name ∈ m.map Prod.fst
  · simpa [hm] using h
  · rw [if_neg hm, List.nodup_append]
    refine ⟨h, List.nodup_singleton _, ?_⟩
    intro a ha hb
    rw [List.mem_singleton] at hb
    subst hb
    exact hm ha

theorem accumSeed_keys_nodup {m : List (String × AccumData)}
    (h : (m.map Prod.fst).Nodup) (w : Rat) (sims : List SimilarArtist) :
    ((accumSeed w m sims).map Prod.fst).Nodup := by
  induction sims generalizing m with
  | nil => exact h
  | cons s rest ih => exact ih (accumStep_keys_nodup h w s)

theorem accumAll_keys_nodup (lookup : String → List SimilarArtist)
    (artists : List WeightedArtist) :
    ((accumAll lookup artists).map Prod.fst).Nodup := by
  suffices h : ∀ (l : List (WeightedArtist × List SimilarArtist))
      (m : List (String × AccumData)), (m.map Prod.fst).Nodup →
      ((l.foldl (fun m p => accumSeed p.1.weight m p.2) m).map Prod.fst).Nodup by
    exact h _ [] (by simp)
  intro l
  induction l with
  | nil => intro m hm; exact hm
  | cons p rest ih =>
      intro m hm
      exact ih _ (accumSeed_keys_nodup hm p.1.weight p.2)

end LastFmService

/-!
## C1 — case sensitivity of the aggregation key

The spec claims the `artistData` key is matched case-insensitively.  The
source (lastfmService.js line 73-75) keys the map by the exact string
`similar.name`, so names differing only in case produce distinct entries.
-/

/-- Concrete similarity oracle for the C1 counterexample: seed A surfaces
"X", seed B surfaces "x". -/
def lookupCase : String → List SimilarArtist := fun n =>
  if n = "A" then [⟨"X", 1/2⟩] else if n = "B" then [⟨"x", 1/2⟩] else []

/-- C1 counterexample: with seeds A and B of weight 1/2 each, where A's
lookup returns "X" and B's returns "x", the aggregation output contains two
entries whose names are equal up to case — the candidate key is NOT matched
case-insensitively. -/
theorem c1_counterexample :
    (LastFmService.getSimilarArtistsForMultiple lookupCase
        [.weighted ⟨"A", 1/2⟩, .weighted ⟨"B", 1/2⟩]).map
          (fun e => e.name) = ["X", "x"]
    ∧ toLowerCase "X" = toLowerCase "x" ∧ ("X" : String) ≠ "x" := by
  refine ⟨?_, by decide, by decide⟩
  simp only [LastFmService.getSimilarArtistsForMultiple, lookupCase,
    LastFmService.normalizeArtistInput, LastFmService.fanOutNames,
    LastFmService.accumAll, LastFmService.accumSeed, LastFmService.accumStep,
    LastFmService.toAggregated, sortByCombinedScoreDesc, insertDesc,
    List.map, List.zip, List.zipWith, List.foldl, List.foldr,
    String.reduceEq, reduceIte]
  norm_num

/-- C1 (amended): the candidate key of the aggregation map is matched by
exact (case-sensitive) string equality, so the output never contains two
entries with identical names, but entries whose names differ only in letter
case remain separate. -/
theorem c1_output_names_nodup (lookup : String → List SimilarArtist)
    (artistsWithWeights : List ArtistInput) :
    ((LastFmService.getSimilarArtistsForMultiple lookup artistsWithWeights).map
      (fun e => e.name)).Nodup := by
  have hdef : LastFmService.getSimilarArtistsForMultiple lookup artistsWithWeights =
      sortByCombinedScoreDesc
        ((LastFmService.accumAll lookup
          (LastFmService.normalizeArtistInput artistsWithWeights)).map
          LastFmService.toAggregated) := rfl
  rw [hdef]
  have hperm := (sortByCombinedScoreDesc_perm
    ((LastFmService.accumAll lookup
        (LastFmService.normalizeArtistInput artistsWithWeights)).map
      LastFmService.toAggregated)).map (fun e => e.name)
  rw [List.Perm.nodup_iff hperm]
  have hmm : (((LastFmService.accumAll lookup
      (LastFmService.normalizeArtistInput artistsWithWeights)).map
      LastFmService.toAggregated).map (fun e => e.name)) =
      (LastFmService.accumAll lookup
        (LastFmService.normalizeArtistInput artistsWithWeights)).map Prod.fst := by
    simp [List.map_map, LastFmService.toAggregated]
  rw [hmm]
  exact LastFmService.accumAll_keys_nodup _ _

/-! ## Helper lemmas: the accumulated weighted score -/

namespace LastFmService

/-- Total `weightedScoreSum` recorded under key `k` in the accumulation map
(summed over all entries with that key; with distinct keys this is the single
entry's value, and 0 when the key is absent). -/
def scoreOf : List (String × AccumData) → String → Rat
  | [], _ => 0
  | e :: rest, k => (if e.1 = k then e.2.weightedScoreSum else 0) + scoreOf rest k

theorem scoreOf_eq_zero_of_not_mem {m : List (String × AccumData)} {k : String}
    (h : k ∉ m.map Prod.fst) : scoreOf m k = 0 := by
  induction m with
  | nil => rfl
  | cons e rest ih =>
      simp only [List.map_cons, List.mem_cons] at h
      push_neg at h
      have hne : e.1 ≠ k := fun hh => h.1 hh.symm
      simp [scoreOf, hne, ih h.2]

theorem scoreOf_of_mem {m : List (String × AccumData)} {k : String} {d : AccumData}
    (hnd : (m.map Prod.fst).Nodup) (hmem : (k, d) ∈ m) :
    scoreOf m k = d.weightedScoreSum := by
  induction m with
  | nil => cases hmem
  | cons e rest ih =>
      simp only [List.map_cons, List.nodup_cons] at hnd
      rcases List.mem_cons.mp hmem with heq | htail
      · subst heq
        simp [scoreOf, scoreOf_eq_zero_of_not_mem hnd.1]
      · have hk : k ∈ rest.map Prod.fst :=
          List.mem_map.mpr ⟨(k, d), htail, rfl⟩
        have hne : e.1 ≠ k := fun hh => hnd.1 (hh ▸ hk)
        simp [scoreOf, hne, ih hnd.2 htail]

theorem accumStep_scoreOf (w : Rat) (m : List (String × AccumData))
    (s : SimilarArtist) (k : String) :
    scoreOf (accumStep w m s) k =
      scoreOf m k + (if s.name = k then s.matchScore * w else 0) := by
  induction m with
  | nil =>
      by_cases h : s.name = k <;> simp [accumStep, scoreOf, h]
  | cons e rest ih =>
      obtain ⟨k', d⟩ := e
      by_cases h : k' = s.name
      · subst h
        by_cases hk : s.name = k
        · subst hk
          simp [accumStep, scoreOf]
          try ring
        · simp [accumStep, scoreOf, hk]
          try ring
      · by_cases hk : k' = k
        · subst hk
          simp [accumStep, scoreOf, h, ih]
          try ring
        · simp [accumStep, scoreOf, h, hk, ih]
          try ring

theorem accumSeed_scoreOf (w : Rat) (k : String) (sims : List SimilarArtist)
    (m : List (String × AccumData)) :
    scoreOf (accumSeed w m sims) k =
      scoreOf m k +
        ((sims.filter fun s => s.name = k).map fun s => s.matchScore * w).sum := by
  induction sims generalizing m with
  | nil => simp [accumSeed]
  | cons s rest ih =>
      have hstep : accumSeed w m (s :: rest) = accumSeed w (accumStep w m s) rest := rfl
      rw [hstep, ih, accumStep_scoreOf]
      by_cases h : s.name = k <;> simp [h] <;> ring

theorem accumAll_eq_foldl (lookup : String → List SimilarArtist)
    (artists : List WeightedArtist) :
    accumAll lookup artists =
      artists.foldl (fun m a => accumSeed a.weight m (lookup a.name)) [] := by
  unfold accumAll fanOutNames
  suffices h : ∀ (l : List WeightedArtist) (init : List (String × AccumData)),
      (l.zip ((l.map fun a => a.name).map lookup)).foldl
        (fun m p => accumSeed p.1.weight m p.2) init =
      l.foldl (fun m a => accumSeed a.weight m (lookup a.name)) init from h artists []
  intro l
  induction l with
  | nil => intro init; rfl
  | cons a as ih => intro init; simp only [List.map_cons, List.zip_cons_cons,
      List.foldl_cons, ih]

end LastFmService

/-- The specification's value for a candidate's combined score: the sum, over
every (seed, raw-similar-artist) pair whose raw name equals `k`, of
matchScore × seed weight (spec §8, "combinedScore for a candidate equals the
exact sum of (matchScore × seedWeight) over every (seed, candidate) pair
observed"). -/
def combinedScoreSpec (lookup : String → List SimilarArtist)
    (artists : List WeightedArtist) (k : String) : Rat :=
  (artists.map fun a =>
    (((lookup a.name).filter fun s => s.name = k).map fun s =>
      s.matchScore * a.weight).sum).sum

theorem accumAll_scoreOf (lookup : String → List SimilarArtist)
    (artists : List WeightedArtist) (k : String) :
    LastFmService.scoreOf (LastFmService.accumAll lookup artists) k =
      combinedScoreSpec lookup artists k := by
  rw [LastFmService.accumAll_eq_foldl]
  suffices h : ∀ (l : List WeightedArtist) (m : List (String × AccumData)),
      LastFmService.scoreOf
        (l.foldl (fun m a => LastFmService.accumSeed a.weight m (lookup a.name)) m) k =
      LastFmService.scoreOf m k + combinedScoreSpec lookup l k by
    simpa [LastFmService.scoreOf] using h artists []
  intro l
  induction l with
  | nil => intro m; simp [combinedScoreSpec]
  | cons a as ih =>
      intro m
      simp only [List.foldl_cons, ih, LastFmService.accumSeed_scoreOf,
        combinedScoreSpec, List.map_cons, List.sum_cons]
      ring

/-!
## C3 — combinedScore is the exact weighted sum

For every collection of lookup results, each aggregated candidate's
combinedScore equals the sum of matchScore × seed weight over every
(seed, raw occurrence) pair whose raw name equals the candidate's name
(exact string match, as the map key is the exact name).
-/

/-- C3: every entry of the aggregation output carries as combinedScore the
exact sum of matchScore × seedWeight over all (seed, candidate) pairs in
which that candidate name was returned for that seed. -/
theorem c3_combinedScore_exact_sum (lookup : String → List SimilarArtist)
    (artists : List WeightedArtist) (e : AggregatedArtist)
    (he : e ∈ LastFmService.getSimilarArtistsForMultiple lookup
      (artists.map ArtistInput.weighted)) :
    e.combinedScore = combinedScoreSpec lookup artists e.name := by
  have hnorm : LastFmService.normalizeArtistInput (artists.map ArtistInput.weighted) =
      artists := by
    unfold LastFmService.normalizeArtistInput
    rw [List.map_map]
    show List.map (fun w => w) artists = artists
    exact List.map_id _
  have hdef : LastFmService.getSimilarArtistsForMultiple lookup
      (artists.map ArtistInput.weighted) =
      sortByCombinedScoreDesc
        ((LastFmService.accumAll lookup artists).map LastFmService.toAggregated) := by
    show sortByCombinedScoreDesc ((LastFmService.accumAll lookup
      (LastFmService.normalizeArtistInput (artists.map ArtistInput.weighted))).map
      LastFmService.toAggregated) = _
    rw [hnorm]
  rw [hdef] at he
  rw [mem_sortByCombinedScoreDesc] at he
  obtain ⟨entry, hmem, hE⟩ := List.mem_map.mp he
  obtain ⟨k, d⟩ := entry
  have hname : e.name = k := by rw [← hE]; rfl
  have hscore : e.combinedScore = d.weightedScoreSum := by rw [← hE]; rfl
  rw [hscore, hname]
  rw [← LastFmService.scoreOf_of_mem (LastFmService.accumAll_keys_nodup lookup artists) hmem]
  exact accumAll_scoreOf lookup artists k

/-- The concrete scenario of spec §8: seeds A and B with weight 1/2 each,
lookup(A) = [(X, 0.8), (Y, 0.2)], lookup(B) = [(X, 0.6)]. -/
def lookupScenario : String → List SimilarArtist := fun n =>
  if n = "A" then [⟨"X", 4/5⟩, ⟨"Y", 1/5⟩]
  else if n = "B" then [⟨"X", 3/5⟩] else []

/-- The full aggregation run of the spec §8 scenario, for reuse in witnesses:
X → frequency 2, averageMatch 0.7, combinedScore 0.7; Y → frequency 1,
averageMatch 0.2, combinedScore 0.1. -/
theorem lookupScenario_run :
    LastFmService.getSimilarArtistsForMultiple lookupScenario
      ([⟨"A", 1/2⟩, ⟨"B", 1/2⟩].map ArtistInput.weighted) =
      [⟨"X", 2, 7/10, 7/10⟩, ⟨"Y", 1, 1/5, 1/10⟩] := by
  simp only [LastFmService.getSimilarArtistsForMultiple, lookupScenario,
    LastFmService.normalizeArtistInput, LastFmService.fanOutNames,
    LastFmService.accumAll, LastFmService.accumSeed, LastFmService.accumStep,
    LastFmService.toAggregated, sortByCombinedScoreDesc, insertDesc,
    List.map, List.zip, List.zipWith, List.foldl, List.foldr,
    String.reduceEq, reduceIte]
  norm_num

/-- C3 witness: in the spec §8 scenario the X entry of the output satisfies
the theorem at a concrete input — its combinedScore equals the spec sum
0.8 × 0.5 + 0.6 × 0.5. -/
theorem c3_witness :
    (⟨"X", 2, 7/10, 7/10⟩ : AggregatedArtist).combinedScore =
      combinedScoreSpec lookupScenario [⟨"A", 1/2⟩, ⟨"B", 1/2⟩]
        (⟨"X", 2, 7/10, 7/10⟩ : AggregatedArtist).name := by
  apply c3_combinedScore_exact_sum lookupScenario [⟨"A", 1/2⟩, ⟨"B", 1/2⟩]
  rw [lookupScenario_run]
  simp

/-!
## C10 — the older aggregation is the current one scaled by N

src/unnamed/part_002 sets combinedScore = frequency × averageMatch, which
equals the plain sum of the raw match scores for that candidate.  The
current aggregation on unweighted (string) input weights every seed by 1/N,
so its combinedScore is that same sum divided by N.  Entry order, names,
frequencies and averages coincide, so the two rankings are identical.
-/

/-- Scale an aggregated entry's combinedScore by a constant. -/
def scaleCombined (c : Rat) (e : AggregatedArtist) : AggregatedArtist :=
  ⟨e.name, e.frequency, e.averageMatch, c * e.combinedScore⟩

theorem insertDesc_scale {c : Rat} (hc : 0 < c) (x : AggregatedArtist)
    (l : List AggregatedArtist) :
    insertDesc (scaleCombined c x) (l.map (scaleCombined c)) =
      (insertDesc x l).map (scaleCombined c) := by
  induction l with
  | nil => rfl
  | cons y ys ih =>
      have hcond : ((scaleCombined c y).combinedScore ≤
          (scaleCombined c x).combinedScore) ↔
          (y.combinedScore ≤ x.combinedScore) := by
        show c * y.combinedScore ≤ c * x.combinedScore ↔ _
        exact mul_le_mul_left hc
      by_cases h : y.combinedScore ≤ x.combinedScore
      · simp [insertDesc, h, hcond.mpr h]
      · have hcond2 : ¬((scaleCombined c y).combinedScore ≤
            (scaleCombined c x).combinedScore) := fun hh => h (hcond.mp hh)
        simp [insertDesc, h, hcond2, ih]

theorem sortByCombinedScoreDesc_scale {c : Rat} (hc : 0 < c)
    (l : List AggregatedArtist) :
    sortByCombinedScoreDesc (l.map (scaleCombined c)) =
      (sortByCombinedScoreDesc l).map (scaleCombined c) := by
  induction l with
  | nil => rfl
  | cons x xs ih =>
      simp only [sortByCombinedScoreDesc, List.map_cons, List.foldr_cons] at ih ⊢
      rw [ih, insertDesc_scale hc]

namespace LastFmServiceOld

open LastFmService

/-- Forget the `weightedScoreSum` component of a current-aggregation map
entry, obtaining an entry of the older aggregation's map. -/
def projEntry (e : String × AccumData) : String × OldAccum :=
  (e.1, ⟨e.2.frequency, e.2.scores⟩)

theorem oldAccumStep_proj (c : Rat) (m : List (String × AccumData))
    (s : SimilarArtist) :
    oldAccumStep (m.map projEntry) s = (accumStep c m s).map projEntry := by
  induction m with
  | nil => rfl
  | cons e rest ih =>
      obtain ⟨k, d⟩ := e
      by_cases h : k = s.name
      · simp [oldAccumStep, accumStep, projEntry, h]
      · simp [oldAccumStep, accumStep, projEntry, h, ih]

theorem oldAccumSeed_proj (c : Rat) (sims : List SimilarArtist)
    (m : List (String × AccumData)) :
    sims.foldl oldAccumStep (m.map projEntry) =
      (accumSeed c m sims).map projEntry := by
  induction sims generalizing m with
  | nil => rfl
  | cons s rest ih =>
      have hstep : accumSeed c m (s :: rest) = accumSeed c (accumStep c m s) rest := rfl

  -- fold one step then recurse
      rw [hstep, List.foldl_cons, oldAccumStep_proj c, ih]

/-- The per-entry invariant of the current accumulation when every seed has
the same weight `c`: the scores list has length `frequency` and the weighted
sum is the plain sum times `c`. -/
def EntryInv (c : Rat) (m : List (String × AccumData)) : Prop :=
  ∀ e ∈ m, e.2.scores.length = e.2.frequency ∧
    e.2.weightedScoreSum = e.2.scores.sum * c

theorem accumStep_entryInv {c : Rat} {m : List (String × AccumData)}
    (hm : EntryInv c m) (s : SimilarArtist) : EntryInv c (accumStep c m s) := by
  induction m with
  | nil =>
      intro e he
      simp only [accumStep, List.mem_singleton] at he
      subst he
      constructor
      · rfl
      · simp
  | cons hd rest ih =>
      obtain ⟨k, d⟩ := hd
      have hhd := hm (k, d) (List.mem_cons_self _ _)
      have hrest : EntryInv c rest := fun e he => hm e (List.mem_cons_of_mem _ he)
      by_cases h : k = s.name
      · intro e he
        simp only [accumStep, if_pos h, List.mem_cons] at he
        rcases he with heq | htail
        · subst heq
          have h1 : d.scores.length = d.frequency := hhd.1
          have h2 : d.weightedScoreSum = d.scores.sum * c := hhd.2
          refine ⟨by simp [h1], ?_⟩
          show d.weightedScoreSum + s.matchScore * c = _
          rw [h2]
          simp
          ring
        · exact hrest e htail
      · intro e he
        simp only [accumStep, if_neg h, List.mem_cons] at he
        rcases he with heq | htail
        · subst heq; exact hhd
        · exact ih hrest e htail

theorem accumSeed_entryInv {c : Rat} {m : List (String × AccumData)}
    (hm : EntryInv c m) (sims : List SimilarArtist) :
    EntryInv c (accumSeed c m sims) := by
  induction sims generalizing m with
  | nil => exact hm
  | cons s rest ih => exact ih (accumStep_entryInv hm s)

theorem foldl_flatten_eq (lookup : String → List SimilarArtist)
    (names : List String) (init : List (String × OldAccum)) :
    ((names.map lookup).flatten).foldl oldAccumStep init =
      names.foldl (fun m s => (lookup s).foldl oldAccumStep m) init := by
  induction names generalizing init with
  | nil => rfl
  | cons n rest ih =>
      simp only [List.map_cons, List.flatten_cons, List.foldl_append,
        List.foldl_cons, ih]

theorem old_new_fold (lookup : String → List SimilarArtist) (c : Rat)
    (names : List String) (m : List (String × AccumData)) :
    names.foldl (fun m2 s => (lookup s).foldl oldAccumStep m2) (m.map projEntry) =
      (names.foldl (fun m2 s => accumSeed c m2 (lookup s)) m).map projEntry := by
  induction names generalizing m with
  | nil => rfl
  | cons n rest ih =>
      simp only [List.foldl_cons]
      rw [oldAccumSeed_proj c, ih]

theorem fold_entryInv (lookup : String → List SimilarArtist) {c : Rat}
    {m : List (String × AccumData)} (hm : EntryInv c m) (names : List String) :
    EntryInv c (names.foldl (fun m2 s => accumSeed c m2 (lookup s)) m) := by
  induction names generalizing m with
  | nil => exact hm
  | cons n rest ih =>
      simp only [List.foldl_cons]
      exact ih (accumSeed_entryInv hm (lookup n))

theorem old_entry_eq {N : Rat} (hN : N ≠ 0) (e : String × AccumData)
    (h1 : e.2.scores.length = e.2.frequency)
    (h2 : e.2.weightedScoreSum = e.2.scores.sum * (1 / N)) :
    (⟨e.1, e.2.frequency, e.2.scores.sum / (e.2.scores.length : Rat),
      (e.2.frequency : Rat) * (e.2.scores.sum / (e.2.scores.length : Rat))⟩ :
        AggregatedArtist) =
      scaleCombined N (LastFmService.toAggregated e) := by
  unfold scaleCombined LastFmService.toAggregated
  simp only [AggregatedArtist.mk.injEq, true_and]
  rw [h2]
  by_cases hf : e.2.frequency = 0
  · have hlen : e.2.scores.length = 0 := h1.trans hf
    have hnil : e.2.scores = [] := List.eq_nil_of_length_eq_zero hlen
    simp [hf, hnil]
  · have hlenQ : ((e.2.scores.length : Nat) : Rat) = (e.2.frequency : Rat) := by
      exact_mod_cast congrArg Nat.cast h1
    have hfQ : (e.2.frequency : Rat) ≠ 0 := Nat.cast_ne_zero.mpr hf
    rw [hlenQ]
    field_simp

end LastFmServiceOld

/-- C10: on the same lookup results over N seed names, the older aggregation
(src/unnamed/part_002, combinedScore = frequency × averageMatch) equals the
current aggregation on unweighted string input (weights 1/N) with every
combinedScore multiplied by the constant factor N — names, frequencies and
average scores coincide entry-for-entry, so the descending ranking order of
candidates is identical. -/
theorem c10_old_equals_scaled_current (lookup : String → List SimilarArtist)
    (names : List String) :
    LastFmServiceOld.getSimilarArtistsForMultiple lookup names =
      (LastFmService.getSimilarArtistsForMultiple lookup
        (names.map ArtistInput.str)).map (scaleCombined (names.length : Rat))
    ∧ (LastFmServiceOld.getSimilarArtistsForMultiple lookup names).map
        (fun e => e.name) =
      (LastFmService.getSimilarArtistsForMultiple lookup
        (names.map ArtistInput.str)).map (fun e => e.name) := by
  have main : LastFmServiceOld.getSimilarArtistsForMultiple lookup names =
      (LastFmService.getSimilarArtistsForMultiple lookup
        (names.map ArtistInput.str)).map (scaleCombined (names.length : Rat)) := by
    by_cases hnil : names = []
    · subst hnil; rfl
    · have hlen : names.length ≠ 0 := fun hh => hnil (List.length_eq_zero.mp hh)
      have hN : ((names.length : Nat) : Rat) ≠ 0 := Nat.cast_ne_zero.mpr hlen
      have hNpos : (0 : Rat) < (names.length : Rat) :=
        Nat.cast_pos.mpr (Nat.pos_of_ne_zero hlen)
      have hnorm : LastFmService.normalizeArtistInput (names.map ArtistInput.str) =
          names.map (fun s => (⟨s, 1 / (names.length : Rat)⟩ : WeightedArtist)) := by
        unfold LastFmService.normalizeArtistInput
        rw [List.map_map]
        show names.map (fun s =>
          (⟨s, 1 / ((names.map ArtistInput.str).length : Rat)⟩ : WeightedArtist)) = _
        rw [List.length_map]
      have hnew : LastFmService.getSimilarArtistsForMultiple lookup
          (names.map ArtistInput.str) =
          sortByCombinedScoreDesc
            ((names.foldl
              (fun m s => LastFmService.accumSeed (1 / (names.length : Rat)) m (lookup s))
              []).map LastFmService.toAggregated) := by
        show sortByCombinedScoreDesc
          ((LastFmService.accumAll lookup
            (LastFmService.normalizeArtistInput (names.map ArtistInput.str))).map
            LastFmService.toAggregated) = _
        rw [hnorm, LastFmService.accumAll_eq_foldl, List.foldl_map]
      have hold : LastFmServiceOld.getSimilarArtistsForMultiple lookup names =
          sortByCombinedScoreDesc
            (((names.foldl
              (fun m s => LastFmService.accumSeed (1 / (names.length : Rat)) m (lookup s))
              []).map LastFmServiceOld.projEntry).map (fun e =>
                (⟨e.1, e.2.frequency, e.2.scores.sum / (e.2.scores.length : Rat),
                  (e.2.frequency : Rat) *
                    (e.2.scores.sum / (e.2.scores.length : Rat))⟩ : AggregatedArtist))) := by
        show sortByCombinedScoreDesc
          ((((names.map lookup).flatten).foldl LastFmServiceOld.oldAccumStep []).map _) = _
        rw [LastFmServiceOld.foldl_flatten_eq]
        rw [show ([] : List (String × LastFmServiceOld.OldAccum)) =
          ([] : List (String × AccumData)).map LastFmServiceOld.projEntry from rfl]
        rw [LastFmServiceOld.old_new_fold lookup (1 / (names.length : Rat))]
      have hinvEmpty : LastFmServiceOld.EntryInv (1 / (names.length : Rat))
          ([] : List (String × AccumData)) := by
        intro e he
        exact absurd he (List.not_mem_nil e)
      have hinv := LastFmServiceOld.fold_entryInv lookup hinvEmpty names
      have hmapeq : (((names.foldl
            (fun m s => LastFmService.accumSeed (1 / (names.length : Rat)) m (lookup s))
            []).map LastFmServiceOld.projEntry).map (fun e =>
              (⟨e.1, e.2.frequency, e.2.scores.sum / (e.2.scores.length : Rat),
                (e.2.frequency : Rat) *
                  (e.2.scores.sum / (e.2.scores.length : Rat))⟩ : AggregatedArtist))) =
          ((names.foldl
            (fun m s => LastFmService.accumSeed (1 / (names.length : Rat)) m (lookup s))
            []).map LastFmService.toAggregated).map
              (scaleCombined (names.length : Rat)) := by
        rw [List.map_map, List.map_map]
        apply List.map_congr_left
        intro e he
        have h12 := hinv e he
        exact LastFmServiceOld.old_entry_eq hN e h12.1 h12.2
      rw [hold, hmapeq, sortByCombinedScoreDesc_scale hNpos, hnew]
  refine ⟨main, ?_⟩
  rw [main, List.map_map]
  rfl

/-!
## C5 — normalized playlist weights sum to 1 only when the total is positive

Dividing by the raw total makes the normalized weights sum to exactly 1
whenever the total is nonzero.  The claim ranges over all weights in
[0, 100]; the all-zero assignment lies in that range and breaks it
(JavaScript produces NaN weights, the rational model 0/0 = 0 — in neither
case does the sum land within 1e-9 of 1).
-/

/-- C5 counterexample: a non-empty playlist list whose single weight 0 is in
the allowed range [0, 100]; after normalization the weights sum to 0, not
within 1e-9 of 1. -/
theorem c5_counterexample :
    ([(⟨"u", 0⟩ : WeightedPlaylist)] ≠ [])
    ∧ ((0 : Rat) ≤ 0 ∧ (0 : Rat) ≤ 100)
    ∧ ((RecommendationEngine.normalizePlaylistWeights [⟨"u", 0⟩]).map
        (fun p => p.weight)).sum = 0
    ∧ ¬(|((RecommendationEngine.normalizePlaylistWeights [⟨"u", 0⟩]).map
        (fun p => p.weight)).sum - 1| ≤ 1 / 1000000000) := by
  refine ⟨by simp, by norm_num, ?_, ?_⟩ <;>
    simp [RecommendationEngine.normalizePlaylistWeights] <;> norm_num

/-- C5 (amended): for every non-empty playlist list with weights in [0, 100]
whose raw weights have a positive sum, the normalized weights sum to exactly
1 — in particular within the claimed 1e-9 tolerance. -/
theorem c5_normalized_weights_sum_to_one (l : List WeightedPlaylist)
    (hne : l ≠ [])
    (hrange : ∀ p ∈ l, 0 ≤ p.weight ∧ p.weight ≤ 100)
    (hpos : 0 < (l.map fun p => p.weight).sum) :
    ((RecommendationEngine.normalizePlaylistWeights l).map fun p => p.weight).sum = 1
    ∧ |((RecommendationEngine.normalizePlaylistWeights l).map
        fun p => p.weight).sum - 1| ≤ 1 / 1000000000 := by
  have h1 : ((RecommendationEngine.normalizePlaylistWeights l).map
      fun p => p.weight).sum = (l.map fun p => p.weight).sum / (l.map fun p => p.weight).sum := by
    unfold RecommendationEngine.normalizePlaylistWeights
    rw [List.map_map]
    show (l.map fun p => p.weight / (l.map fun p => p.weight).sum).sum = _
    simp only [div_eq_mul_inv]
    rw [← List.sum_map_mul_right]
  rw [h1, div_self (ne_of_gt hpos)]
  norm_num

/-- C5 witness: two playlists weighted 60 and 40 satisfy the hypotheses, and
their normalized weights sum to exactly 1. -/
theorem c5_witness :
    ((RecommendationEngine.normalizePlaylistWeights
      [⟨"a", 60⟩, ⟨"b", 40⟩]).map fun p => p.weight).sum = 1
    ∧ |((RecommendationEngine.normalizePlaylistWeights
      [⟨"a", 60⟩, ⟨"b", 40⟩]).map fun p => p.weight).sum - 1| ≤ 1 / 1000000000 := by
  apply c5_normalized_weights_sum_to_one
  · simp
  · intro p hp
    rcases List.mem_cons.mp hp with h | h
    · subst h; norm_num
    · rw [List.mem_singleton] at h; subst h; norm_num
  · norm_num

/-!
## C2 — seed-artist weights do not sum to 1

Weight normalization (part_001 lines 78-82) makes the PLAYLIST weights sum
to 1, but each seed artist then receives the full weight of every playlist
containing it (lines 92-102).  The total over all seed artists is therefore
Σ_playlists weight × (number of distinct artists in the playlist), which
exceeds 1 as soon as any playlist resolves to more than one artist.
-/

namespace RecommendationEngine

theorem addSeed_weight_sum (w : Rat) (m : List SeedArtist) (a : Artist) :
    ((addSeed w m a).map fun s => s.weight).sum =
      ((m.map fun s => s.weight).sum) + w := by
  induction m with
  | nil => simp [addSeed]
  | cons s rest ih =>
      by_cases h : s.id = a.id
      · simp only [addSeed, if_pos h, List.map_cons, List.sum_cons]
        ring
      · simp only [addSeed, if_neg h, List.map_cons, List.sum_cons, ih]
        ring

theorem foldl_addSeed_weight_sum (w : Rat) (artists : List Artist)
    (m : List SeedArtist) :
    ((artists.foldl (addSeed w) m).map fun s => s.weight).sum =
      ((m.map fun s => s.weight).sum) + w * (artists.length : Rat) := by
  induction artists generalizing m with
  | nil => simp
  | cons a rest ih =>
      simp only [List.foldl_cons, ih, addSeed_weight_sum, List.length_cons]
      push_cast
      ring

theorem buildSeedMap_weight_sum (fetch : String → Except String (List Track))
    (ps : List WeightedPlaylist) (m : List SeedArtist) (seeds : List SeedArtist)
    (h : buildSeedMap fetch ps m = .ok seeds) :
    ((seeds.map fun s => s.weight).sum) =
      ((m.map fun s => s.weight).sum) +
        (ps.map fun p =>
          p.weight * ((fetchedArtists fetch p.url).length : Rat)).sum := by
  induction ps generalizing m with
  | nil =>
      unfold buildSeedMap at h
      cases h
      simp
  | cons p rest ih =>
      unfold buildSeedMap at h
      cases hf : fetch p.url with
      | error e => rw [hf] at h; cases h
      | ok tracks =>
          rw [hf] at h
          rw [ih _ h, foldl_addSeed_weight_sum]
          simp only [List.map_cons, List.sum_cons]
          unfold fetchedArtists
          rw [hf]
          ring

end RecommendationEngine

/-- Fetch oracle for the C2 counterexample: one playlist resolving to one
track by two distinct artists. -/
def fetchTwoArtists : String → Except String (List Track) := fun u =>
  if u = "u" then .ok [⟨"t", [⟨"i1", "A"⟩, ⟨"i2", "B"⟩]⟩] else .error "not found"

/-- C2 counterexample: a single playlist (normalized playlist weight 1)
containing two artists yields a seed mapping whose weights sum to 2, not 1 —
each artist receives the playlist's full normalized weight. -/
theorem c2_counterexample :
    RecommendationEngine.buildSeedMap fetchTwoArtists
      (RecommendationEngine.normalizePlaylistWeights
        (RecommendationEngine.toWeightedPlaylists [.url "u"])) [] =
      .ok [⟨"i1", "A", 1⟩, ⟨"i2", "B", 1⟩]
    ∧ (([(⟨"i1", "A", 1⟩ : SeedArtist), ⟨"i2", "B", 1⟩].map
        fun s => s.weight).sum = 2)
    ∧ (2 : Rat) ≠ 1 := by
  refine ⟨?_, by norm_num, by norm_num⟩
  simp only [RecommendationEngine.toWeightedPlaylists,
    RecommendationEngine.normalizePlaylistWeights,
    RecommendationEngine.buildSeedMap, fetchTwoArtists,
    SpotifyService.getPlaylistArtists, SpotifyService.addArtist,
    RecommendationEngine.addSeed, List.map, List.foldl, List.sum,
    List.any, String.reduceEq, reduceIte]
  norm_num

/-- C2 (amended): after normalization the seed-artist weights sum to
Σ over playlists of (normalized playlist weight × number of distinct
artists resolved from that playlist); they sum to 1 only in the special
case where every playlist contributes exactly one artist. -/
theorem c2_seed_weight_total (fetch : String → Except String (List Track))
    (ps : List WeightedPlaylist) (seeds : List SeedArtist)
    (h : RecommendationEngine.buildSeedMap fetch ps [] = .ok seeds) :
    (seeds.map fun s => s.weight).sum =
      (ps.map fun p =>
        p.weight * ((RecommendationEngine.fetchedArtists fetch p.url).length : Rat)).sum := by
  simpa using RecommendationEngine.buildSeedMap_weight_sum fetch ps [] seeds h

/-- C2 witness: the amended formula applied to the concrete two-artist
playlist — the seed weights sum to 1 × 2. -/
theorem c2_witness :
    (([(⟨"i1", "A", 1⟩ : SeedArtist), ⟨"i2", "B", 1⟩].map
      fun s => s.weight).sum) =
      (([(⟨"u", 1⟩ : WeightedPlaylist)]).map fun p =>
        p.weight *
          ((RecommendationEngine.fetchedArtists fetchTwoArtists p.url).length : Rat)).sum := by
  apply c2_seed_weight_total
  simp only [RecommendationEngine.buildSeedMap, fetchTwoArtists,
    SpotifyService.getPlaylistArtists, SpotifyService.addArtist,
    RecommendationEngine.addSeed, List.map, List.foldl, List.any,
    String.reduceEq, reduceIte]

/-! ## Helper lemmas: per-id seed weight and id uniqueness -/

namespace SpotifyService

theorem addArtist_ids_nodup {m : List Artist} (h : (m.map fun a => a.id).Nodup)
    (artist : Artist) : ((addArtist m artist).map fun a => a.id).Nodup := by
  unfold addArtist
  by_cases hany : (m.any fun a => a.id = artist.id) = true
  · simp [hany, h]
  · rw [if_neg hany]
    simp only [List.map_append, List.map_cons, List.map_nil]
    rw [List.nodup_append]
    refine ⟨h, List.nodup_singleton _, ?_⟩
    intro x hx hxin
    rw [List.mem_singleton] at hxin
    subst hxin
    obtain ⟨b, hb, hbid⟩ := List.mem_map.mp hx
    exact hany (List.any_eq_true.mpr ⟨b, hb, by simp [hbid]⟩)

theorem foldl_addArtist_ids_nodup (l : List Artist) {m : List Artist}
    (h : (m.map fun a => a.id).Nodup) :
    ((l.foldl addArtist m).map fun a => a.id).Nodup := by
  induction l generalizing m with
  | nil => exact h
  | cons a rest ih => exact ih (addArtist_ids_nodup h a)

theorem getPlaylistArtists_ids_nodup (tracks : List Track) :
    ((getPlaylistArtists tracks).map fun a => a.id).Nodup := by
  suffices hgen : ∀ (ts : List Track) (m : List Artist),
      (m.map fun a => a.id).Nodup →
      ((ts.foldl (fun m t => t.artists.foldl addArtist m) m).map fun a => a.id).Nodup from
    hgen tracks [] (by simp)
  intro ts
  induction ts with
  | nil => intro m hm; exact hm
  | cons t rest ih =>
      intro m hm
      exact ih _ (foldl_addArtist_ids_nodup t.artists hm)

end SpotifyService

namespace RecommendationEngine

theorem fetchedArtists_ids_nodup (fetch : String → Except String (List Track))
    (u : String) : ((fetchedArtists fetch u).map fun a => a.id).Nodup := by
  unfold fetchedArtists
  cases fetch u with
  | error e => simp
  | ok tracks => exact SpotifyService.getPlaylistArtists_ids_nodup tracks

theorem filter_id_length_one {l : List Artist}
    (hnd : (l.map fun a => a.id).Nodup) {i : String}
    (hmem : i ∈ l.map fun a => a.id) :
    (l.filter fun a => a.id = i).length = 1 := by
  induction l with
  | nil => cases hmem
  | cons a rest ih =>
      simp only [List.map_cons, List.nodup_cons] at hnd
      by_cases h : a.id = i
      · subst h
        have hnone : rest.filter (fun a2 => a2.id = a.id) = [] := by
          rw [List.filter_eq_nil_iff]
          intro x hx
          simp only [decide_eq_true_eq]
          intro hxid
          exact hnd.1 (List.mem_map.mpr ⟨x, hx, hxid⟩)
        simp [List.filter_cons, hnone]
      · have hmem2 : i ∈ rest.map fun a => a.id := by
          rcases List.mem_cons.mp hmem with heq | htail
          · exact absurd heq.symm h
          · exact htail
        rw [List.filter_cons, if_neg (by simpa using h)]
        exact ih hnd.2 hmem2

/-- Total weight recorded for artist id `i` in the seed map (the single
entry's weight when ids are unique, 0 when absent). -/
def seedWeightOf : List SeedArtist → String → Rat
  | [], _ => 0
  | s :: rest, i => (if s.id = i then s.weight else 0) + seedWeightOf rest i

theorem addSeed_weightOf (w : Rat) (m : List SeedArtist) (a : Artist) (i : String) :
    seedWeightOf (addSeed w m a) i =
      seedWeightOf m i + (if a.id = i then w else 0) := by
  induction m with
  | nil =>
      by_cases h : a.id = i <;> simp [addSeed, seedWeightOf, h]
  | cons s rest ih =>
      by_cases h : s.id = a.id
      · by_cases hi : s.id = i
        · have ha : a.id = i := h.symm.trans hi
          simp only [addSeed, if_pos h, seedWeightOf, if_pos hi, if_pos ha]
          ring
        · have ha : ¬(a.id = i) := fun hh => hi (h.trans hh)
          simp only [addSeed, if_pos h, seedWeightOf, if_neg hi, if_neg ha]
          ring
      · by_cases hi : s.id = i
        · simp only [addSeed, if_neg h, seedWeightOf, if_pos hi, ih]
          ring
        · simp only [addSeed, if_neg h, seedWeightOf, if_neg hi, ih]
          ring

theorem foldl_addSeed_weightOf (w : Rat) (artists : List Artist)
    (m : List SeedArtist) (i : String) :
    seedWeightOf (artists.foldl (addSeed w) m) i =
      seedWeightOf m i +
        w * ((artists.filter fun a => a.id = i).length : Rat) := by
  induction artists generalizing m with
  | nil => simp
  | cons a rest ih =>
      simp only [List.foldl_cons, ih, addSeed_weightOf]
      by_cases h : a.id = i
      · have hd : decide (a.id = i) = true := by simp [h]
        rw [List.filter_cons, hd, if_pos rfl, List.length_cons, if_pos h]
        push_cast
        ring
      · have hd : decide (a.id = i) = false := by simp [h]
        rw [List.filter_cons, hd, if_neg Bool.false_ne_true, if_neg h]
        ring

theorem buildSeedMap_weightOf (fetch : String → Except String (List Track))
    (ps : List WeightedPlaylist) (m : List SeedArtist) (seeds : List SeedArtist)
    (i : String) (h : buildSeedMap fetch ps m = .ok seeds) :
    seedWeightOf seeds i =
      seedWeightOf m i +
        (ps.map fun p =>
          p.weight *
            (((fetchedArtists fetch p.url).filter fun a => a.id = i).length : Rat)).sum := by
  induction ps generalizing m with
  | nil =>
      unfold buildSeedMap at h
      cases h
      simp
  | cons p rest ih =>
      unfold buildSeedMap at h
      cases hf : fetch p.url with
      | error e => rw [hf] at h; cases h
      | ok tracks =>
          rw [hf] at h
          rw [ih _ h, foldl_addSeed_weightOf]
          simp only [List.map_cons, List.sum_cons]
          unfold fetchedArtists
          rw [hf]
          ring

theorem addSeed_ids (w : Rat) (m : List SeedArtist) (a : Artist) :
    (addSeed w m a).map (fun s => s.id) =
      if a.id ∈ m.map (fun s => s.id) then m.map (fun s => s.id)
      else m.map (fun s => s.id) ++ [a.id] := by
  induction m with
  | nil => simp [addSeed]
  | cons s rest ih =>
      by_cases h : s.id = a.id
      · simp [addSeed, h]
      · have hne : a.id ≠ s.id := fun hh => h hh.symm
        simp only [addSeed, h, if_false, List.map_cons, List.mem_cons, hne,
          false_or, ih]
        by_cases hm : a.id ∈ rest.map (fun s => s.id) <;> simp [hm]

theorem addSeed_ids_nodup {m : List SeedArtist}
    (h : (m.map fun s => s.id).Nodup) (w : Rat) (a : Artist) :
    ((addSeed w m a).map fun s => s.id).Nodup := by
  rw [addSeed_ids]
  by_cases hm : a.id ∈ m.map fun s => s.id
  · simpa [hm] using h
  · rw [if_neg hm, List.nodup_append]
    refine ⟨h, List.nodup_singleton _, ?_⟩
    intro x hx hxin
    rw [List.mem_singleton] at hxin
    subst hxin
    exact hm hx

theorem foldl_addSeed_ids_nodup (w : Rat) (artists : List Artist)
    {m : List SeedArtist} (h : (m.map fun s => s.id).Nodup) :
    ((artists.foldl (addSeed w) m).map fun s => s.id).Nodup := by
  induction artists generalizing m with
  | nil => exact h
  | cons a rest ih => exact ih (addSeed_ids_nodup h w a)

theorem buildSeedMap_ids_nodup (fetch : String → Except String (List Track))
    (ps : List WeightedPlaylist) {m : List SeedArtist} {seeds : List SeedArtist}
    (hm : (m.map fun s => s.id).Nodup)
    (h : buildSeedMap fetch ps m = .ok seeds) :
    (seeds.map fun s => s.id).Nodup := by
  induction ps generalizing m with
  | nil =>
      unfold buildSeedMap at h
      cases h
      exact hm
  | cons p rest ih =>
      unfold buildSeedMap at h
      cases hf : fetch p.url with
      | error e => rw [hf] at h; cases h
      | ok tracks =>
          rw [hf] at h
          exact ih (foldl_addSeed_ids_nodup p.weight _ hm) h

end RecommendationEngine

/-!
## C6 — an artist in two playlists gets the sum of both playlist weights
-/

/-- C6: for two (normalized) input playlists and a successful seed
extraction, any artist id resolved from both playlists carries a seed weight
equal to the sum of the two playlists' weights — summed, not averaged or
overwritten. -/
theorem c6_shared_artist_weight_sum (fetch : String → Except String (List Track))
    (p1 p2 : WeightedPlaylist) (seeds : List SeedArtist) (i : String)
    (h : RecommendationEngine.buildSeedMap fetch [p1, p2] [] = .ok seeds)
    (h1 : i ∈ (RecommendationEngine.fetchedArtists fetch p1.url).map fun a => a.id)
    (h2 : i ∈ (RecommendationEngine.fetchedArtists fetch p2.url).map fun a => a.id) :
    RecommendationEngine.seedWeightOf seeds i = p1.weight + p2.weight := by
  have hw := RecommendationEngine.buildSeedMap_weightOf fetch [p1, p2] [] seeds i h
  have hc1 := RecommendationEngine.filter_id_length_one
    (RecommendationEngine.fetchedArtists_ids_nodup fetch p1.url) h1
  have hc2 := RecommendationEngine.filter_id_length_one
    (RecommendationEngine.fetchedArtists_ids_nodup fetch p2.url) h2
  rw [hw]
  simp only [List.map_cons, List.map_nil, List.sum_cons, List.sum_nil, hc1, hc2,
    RecommendationEngine.seedWeightOf]
  push_cast
  ring

/-- Fetch oracle for the C6 witness: artist i appears in both playlists. -/
def fetchShared : String → Except String (List Track) := fun u =>
  if u = "u1" then .ok [⟨"t1", [⟨"i", "A"⟩]⟩]
  else if u = "u2" then .ok [⟨"t2", [⟨"i", "A"⟩, ⟨"j", "B"⟩]⟩]
  else .error "not found"

/-- C6 witness: with playlist weights 3/5 and 2/5 and artist i in both
playlists, the seed weight of i is 3/5 + 2/5. -/
theorem c6_witness :
    RecommendationEngine.seedWeightOf [⟨"i", "A", 1⟩, ⟨"j", "B", 2/5⟩] "i" =
      3/5 + 2/5 := by
  apply c6_shared_artist_weight_sum fetchShared ⟨"u1", 3/5⟩ ⟨"u2", 2/5⟩
  · simp only [RecommendationEngine.buildSeedMap, fetchShared,
      SpotifyService.getPlaylistArtists, SpotifyService.addArtist,
      RecommendationEngine.addSeed, List.map, List.foldl, List.any,
      String.reduceEq, reduceIte]
    norm_num
  · decide
  · decide

/-!
## C7 — one lookup per seed-map entry, not per distinct name
-/

/-- Fetch oracle for the C7 counterexample: two artists with distinct ids
but the same name in one playlist. -/
def fetchDupNames : String → Except String (List Track) := fun u =>
  if u = "u" then .ok [⟨"t", [⟨"i1", "X"⟩, ⟨"i2", "X"⟩]⟩] else .error "not found"

/-- C7 counterexample: a seed mapping with two entries (distinct ids) that
share the name "X" issues two similarity lookups, while the number of
distinct seed names is one — the fan-out is not deduplicated by name. -/
theorem c7_counterexample :
    RecommendationEngine.buildSeedMap fetchDupNames [⟨"u", 1⟩] [] =
      .ok [⟨"i1", "X", 1⟩, ⟨"i2", "X", 1⟩]
    ∧ (LastFmService.fanOutNames
        ([(⟨"i1", "X", 1⟩ : SeedArtist), ⟨"i2", "X", 1⟩].map
          fun a => (⟨a.name, a.weight⟩ : WeightedArtist))).length = 2
    ∧ (([(⟨"i1", "X", 1⟩ : SeedArtist), ⟨"i2", "X", 1⟩].map
        fun s => s.name).dedup).length = 1
    ∧ (2 : Nat) ≠ 1 := by
  refine ⟨?_, by simp [LastFmService.fanOutNames], by simp, by decide⟩
  simp only [RecommendationEngine.buildSeedMap, fetchDupNames,
    SpotifyService.getPlaylistArtists, SpotifyService.addArtist,
    RecommendationEngine.addSeed, List.map, List.foldl, List.any,
    String.reduceEq, reduceIte]

/-- C7 (amended): the fan-out issues one similarity lookup per entry of the
seed mapping — the number of lookup calls equals the number of distinct
artist ids (which is the size of the mapping), not the number of distinct
names; seeds sharing a name each get their own lookup. -/
theorem c7_one_lookup_per_seed_entry (fetch : String → Except String (List Track))
    (ps : List WeightedPlaylist) (seeds : List SeedArtist)
    (h : RecommendationEngine.buildSeedMap fetch ps [] = .ok seeds) :
    (LastFmService.fanOutNames (seeds.map fun a =>
      (⟨a.name, a.weight⟩ : WeightedArtist))).length =
      ((seeds.map fun s => s.id).dedup).length := by
  have hnd := RecommendationEngine.buildSeedMap_ids_nodup fetch ps (by simp) h
  rw [List.Nodup.dedup hnd]
  simp [LastFmService.fanOutNames]

/-- C7 witness: the amended count applied to the concrete duplicate-name
seed mapping — two lookups for two seed entries. -/
theorem c7_witness :
    (LastFmService.fanOutNames
      ([(⟨"i1", "X", 1⟩ : SeedArtist), ⟨"i2", "X", 1⟩].map
        fun a => (⟨a.name, a.weight⟩ : WeightedArtist))).length =
      (([(⟨"i1", "X", 1⟩ : SeedArtist), ⟨"i2", "X", 1⟩].map
        fun s => s.id).dedup).length := by
  apply c7_one_lookup_per_seed_entry fetchDupNames [⟨"u", 1⟩]
  simp only [RecommendationEngine.buildSeedMap, fetchDupNames,
    SpotifyService.getPlaylistArtists, SpotifyService.addArtist,
    RecommendationEngine.addSeed, List.map, List.foldl, List.any,
    String.reduceEq, reduceIte]

/-!
## C4 — empty playlist list: rejected by the route, not by the engine

getRecommendationsFromMultiple itself performs no input validation: on an
empty playlist sequence it runs through with empty collections and returns a
normal (empty) result.  The InvalidInput rejection lives in the route
handler (part_003 lines 152-162), which answers 400 before calling the
engine.
-/

/-- C4 counterexample: called directly with an empty playlist sequence,
getRecommendationsFromMultiple does NOT fail — it returns a normal result
with empty seed, weight and recommendation lists, even under a fetch oracle
that fails on every call (so no collaborator access happens either). -/
theorem c4_counterexample :
    RecommendationEngine.getRecommendationsFromMultiple
      (fun _ => .error "network error") (fun _ => []) [] ⟨none, none⟩ =
      .ok ⟨[], [], [], 0⟩ := by
  rfl

/-- C4 (amended): the empty-sequence rejection happens in the route layer:
POST /api/recommendations/multiple answers 400 InvalidInput without invoking
the engine whenever both playlist fields are absent or empty, while the
engine itself returns a normal empty result on an empty sequence. -/
theorem c4_route_rejects_empty (fetch : String → Except String (List Track))
    (lookup : String → List SimilarArtist) (body : MultipleBody)
    (hp : body.playlists = none ∨ body.playlists = some [])
    (hu : body.playlistUrls = none ∨ body.playlistUrls = some []) :
    Routes.postRecommendationsMultiple fetch lookup body =
      .badRequest "Either playlistUrls array or playlists array with weights is required"
    ∧ RecommendationEngine.getRecommendationsFromMultiple fetch lookup []
        ⟨body.limit, body.minFrequency⟩ = .ok ⟨[], [], [], 0⟩ := by
  constructor
  · unfold Routes.postRecommendationsMultiple Routes.selectPlaylistInput
    rcases hp with hp | hp <;> rcases hu with hu | hu <;> rw [hp, hu] <;> simp
  · unfold RecommendationEngine.getRecommendationsFromMultiple
    simp [RecommendationEngine.buildSeedMap,
      RecommendationEngine.normalizePlaylistWeights,
      RecommendationEngine.toWeightedPlaylists,
      RecommendationEngine.engineFiltered,
      RecommendationEngine.filterCandidates,
      LastFmService.getSimilarArtistsForMultiple,
      LastFmService.normalizeArtistInput, LastFmService.accumAll,
      LastFmService.fanOutNames, sortByCombinedScoreDesc]

/-- C4 witness: a request body carrying two empty arrays is rejected with
400 by the route, and the engine on the empty sequence yields the empty
normal result. -/
theorem c4_witness :
    Routes.postRecommendationsMultiple (fun _ => .error "network error")
      (fun _ => []) ⟨some [], some [], none, none⟩ =
      .badRequest "Either playlistUrls array or playlists array with weights is required"
    ∧ RecommendationEngine.getRecommendationsFromMultiple
        (fun _ => .error "network error") (fun _ => []) [] ⟨none, none⟩ =
        .ok ⟨[], [], [], 0⟩ :=
  c4_route_rejects_empty (fun _ => .error "network error") (fun _ => [])
    ⟨some [], some [], none, none⟩ (Or.inr rfl) (Or.inr rfl)

/-!
## C8 — self-recommendation exclusion
-/

/-- Unfolded form of getRecommendationsFromMultiple with its lets expanded,
for rewriting under the success hypothesis. -/
theorem getRecommendationsFromMultiple_eq (fetch : String → Except String (List Track))
    (lookup : String → List SimilarArtist) (playlists : List PlaylistInput)
    (options : Options) :
    RecommendationEngine.getRecommendationsFromMultiple fetch lookup playlists
      options =
      match RecommendationEngine.buildSeedMap fetch
        (RecommendationEngine.normalizePlaylistWeights
          (RecommendationEngine.toWeightedPlaylists playlists)) [] with
      | .error e => .error e
      | .ok uniqueArtists =>
          .ok { seedArtists := uniqueArtists.map fun a => ⟨a.id, a.name⟩
                playlistWeights :=
                  (RecommendationEngine.normalizePlaylistWeights
                    (RecommendationEngine.toWeightedPlaylists playlists)).map
                    fun p => (p.url, round (p.weight * 100))
                recommendations :=
                  (RecommendationEngine.engineFiltered lookup uniqueArtists
                    options.minFrequency).take (jsOrNat options.limit 20)
                totalFound :=
                  (RecommendationEngine.engineFiltered lookup uniqueArtists
                    options.minFrequency).length } := rfl

/-- C8: whenever getRecommendationsFromMultiple succeeds, no returned
recommendation's name matches any seed artist's name case-insensitively,
regardless of scores, frequencies, limit or minFrequency. -/
theorem c8_no_self_recommendation (fetch : String → Except String (List Track))
    (lookup : String → List SimilarArtist) (playlists : List PlaylistInput)
    (options : Options) (r : EngineResult) (c : AggregatedArtist) (s : Artist)
    (h : RecommendationEngine.getRecommendationsFromMultiple fetch lookup
      playlists options = .ok r)
    (hc : c ∈ r.recommendations) (hs : s ∈ r.seedArtists) :
    toLowerCase c.name ≠ toLowerCase s.name := by
  rw [getRecommendationsFromMultiple_eq] at h
  cases hb : RecommendationEngine.buildSeedMap fetch
      (RecommendationEngine.normalizePlaylistWeights
        (RecommendationEngine.toWeightedPlaylists playlists)) [] with
  | error e => rw [hb] at h; cases h
  | ok seeds =>
      rw [hb] at h
      injection h with h
      subst h
      have hc2 : c ∈ (RecommendationEngine.engineFiltered lookup seeds
          options.minFrequency).take (jsOrNat options.limit 20) := hc
      have hc3 : c ∈ RecommendationEngine.engineFiltered lookup seeds
          options.minFrequency := List.take_subset _ _ hc2
      simp only [RecommendationEngine.engineFiltered,
        RecommendationEngine.filterCandidates, List.mem_filter,
        decide_eq_true_eq] at hc3
      obtain ⟨-, hnotin, -⟩ := hc3
      have hs2 : s ∈ seeds.map (fun a => (⟨a.id, a.name⟩ : Artist)) := hs
      obtain ⟨a, ha, hsa⟩ := List.mem_map.mp hs2
      subst hsa
      intro heq
      apply hnotin
      rw [heq]
      exact List.mem_map.mpr ⟨a.name, List.mem_map.mpr ⟨a, ha, rfl⟩, rfl⟩

/-- Fetch oracle for the C8/C9 witnesses: one playlist with two tracks by
artists A and B. -/
def fetchAB : String → Except String (List Track) := fun u =>
  if u = "p" then .ok [⟨"t1", [⟨"ia", "A"⟩]⟩, ⟨"t2", [⟨"ib", "B"⟩]⟩]
  else .error "not found"

/-- The concrete engine run behind the C8 witness (spec §8 scenario pushed
through the whole pipeline with default options). -/
theorem fetchAB_run_default :
    RecommendationEngine.getRecommendationsFromMultiple fetchAB lookupScenario
      [.url "p"] ⟨none, none⟩ =
    .ok ⟨[⟨"ia", "A"⟩, ⟨"ib", "B"⟩], [("p", 100)],
      [⟨"X", 2, 7/10, 7/5⟩, ⟨"Y", 1, 1/5, 1/5⟩], 2⟩ := by
  have hX : toLowerCase "X" = "x" := by decide
  have hY : toLowerCase "Y" = "y" := by decide
  have hA : toLowerCase "A" = "a" := by decide
  have hB : toLowerCase "B" = "b" := by decide
  simp only [RecommendationEngine.getRecommendationsFromMultiple,
    RecommendationEngine.toWeightedPlaylists,
    RecommendationEngine.normalizePlaylistWeights,
    RecommendationEngine.buildSeedMap, fetchAB,
    SpotifyService.getPlaylistArtists, SpotifyService.addArtist,
    RecommendationEngine.addSeed,
    RecommendationEngine.engineFiltered, RecommendationEngine.filterCandidates,
    LastFmService.getSimilarArtistsForMultiple, LastFmService.normalizeArtistInput,
    LastFmService.fanOutNames, LastFmService.accumAll, LastFmService.accumSeed,
    LastFmService.accumStep, LastFmService.toAggregated,
    sortByCombinedScoreDesc, insertDesc, lookupScenario, jsOrNat,
    hX, hY, hA, hB,
    List.map, List.zip, List.zipWith, List.foldl, List.foldr, List.sum,
    List.filter, List.take, List.any, List.length, List.mem_cons,
    List.mem_singleton, List.not_mem_nil,
    decide_eq_true_eq, String.reduceEq, reduceIte]
  norm_num [List.filter_cons, hX, hY, hA, hB]
  simp [List.take_of_length_le]

/-- C8 witness: in the concrete run, the recommended candidate X and the
seed artist A differ in lowercased name. -/
theorem c8_witness :
    toLowerCase (⟨"X", 2, 7/10, 7/5⟩ : AggregatedArtist).name ≠
      toLowerCase (⟨"ia", "A"⟩ : Artist).name := by
  apply c8_no_self_recommendation fetchAB lookupScenario [.url "p"]
    ⟨none, none⟩
    ⟨[⟨"ia", "A"⟩, ⟨"ib", "B"⟩], [("p", 100)],
      [⟨"X", 2, 7/10, 7/5⟩, ⟨"Y", 1, 1/5, 1/5⟩], 2⟩
  · exact fetchAB_run_default
  · simp
  · simp

/-!
## C9 — minFrequency filter and totalFound accounting
-/

/-- C9: when getRecommendationsFromMultiple succeeds with minFrequency k,
every returned candidate has frequency ≥ k; totalFound is the number of
aggregated candidates passing the self-recommendation and frequency filters
before truncation, so the recommendation list is no longer than totalFound
and no longer than the effective limit. -/
theorem c9_minFrequency_and_totalFound (fetch : String → Except String (List Track))
    (lookup : String → List SimilarArtist) (playlists : List PlaylistInput)
    (options : Options) (k : Nat) (seeds : List SeedArtist) (r : EngineResult)
    (c : AggregatedArtist)
    (hk : options.minFrequency = some k)
    (hb : RecommendationEngine.buildSeedMap fetch
      (RecommendationEngine.normalizePlaylistWeights
        (RecommendationEngine.toWeightedPlaylists playlists)) [] = .ok seeds)
    (h : RecommendationEngine.getRecommendationsFromMultiple fetch lookup
      playlists options = .ok r)
    (hc : c ∈ r.recommendations) :
    k ≤ c.frequency
    ∧ r.totalFound = (RecommendationEngine.engineFiltered lookup seeds
        options.minFrequency).length
    ∧ r.recommendations.length ≤ r.totalFound
    ∧ r.recommendations.length ≤ jsOrNat options.limit 20 := by
  rw [getRecommendationsFromMultiple_eq, hb] at h
  injection h with h
  subst h
  refine ⟨?_, rfl, ?_, ?_⟩
  · have hc2 : c ∈ (RecommendationEngine.engineFiltered lookup seeds
        options.minFrequency).take (jsOrNat options.limit 20) := hc
    have hc3 : c ∈ RecommendationEngine.engineFiltered lookup seeds
        options.minFrequency := List.take_subset _ _ hc2
    simp only [RecommendationEngine.engineFiltered,
      RecommendationEngine.filterCandidates, List.mem_filter,
      decide_eq_true_eq] at hc3
    obtain ⟨-, -, hfreq⟩ := hc3
    rw [hk] at hfreq
    have hfreq2 : (if k = 0 then 1 else k) ≤ c.frequency := hfreq
    by_cases hk0 : k = 0
    · subst hk0; exact Nat.zero_le _
    · rw [if_neg hk0] at hfreq2
      exact hfreq2
  · show ((RecommendationEngine.engineFiltered lookup seeds
      options.minFrequency).take (jsOrNat options.limit 20)).length ≤ _
    rw [List.length_take]
    exact min_le_right _ _
  · show ((RecommendationEngine.engineFiltered lookup seeds
      options.minFrequency).take (jsOrNat options.limit 20)).length ≤ _
    rw [List.length_take]
    exact min_le_left _ _

/-- The concrete engine run behind the C9 witness: minFrequency 2 filters
the frequency-1 candidate Y out, leaving only X; totalFound is 1. -/
theorem fetchAB_run_minFreq2 :
    RecommendationEngine.getRecommendationsFromMultiple fetchAB lookupScenario
      [.url "p"] ⟨none, some 2⟩ =
    .ok ⟨[⟨"ia", "A"⟩, ⟨"ib", "B"⟩], [("p", 100)],
      [⟨"X", 2, 7/10, 7/5⟩], 1⟩ := by
  have hX : toLowerCase "X" = "x" := by decide
  have hY : toLowerCase "Y" = "y" := by decide
  have hA : toLowerCase "A" = "a" := by decide
  have hB : toLowerCase "B" = "b" := by decide
  simp only [RecommendationEngine.getRecommendationsFromMultiple,
    RecommendationEngine.toWeightedPlaylists,
    RecommendationEngine.normalizePlaylistWeights,
    RecommendationEngine.buildSeedMap, fetchAB,
    SpotifyService.getPlaylistArtists, SpotifyService.addArtist,
    RecommendationEngine.addSeed,
    RecommendationEngine.engineFiltered, RecommendationEngine.filterCandidates,
    LastFmService.getSimilarArtistsForMultiple, LastFmService.normalizeArtistInput,
    LastFmService.fanOutNames, LastFmService.accumAll, LastFmService.accumSeed,
    LastFmService.accumStep, LastFmService.toAggregated,
    sortByCombinedScoreDesc, insertDesc, lookupScenario, jsOrNat,
    hX, hY, hA, hB,
    List.map, List.zip, List.zipWith, List.foldl, List.foldr, List.sum,
    List.filter, List.take, List.any, List.length, List.mem_cons,
    List.mem_singleton, List.not_mem_nil,
    decide_eq_true_eq, String.reduceEq, reduceIte]
  norm_num [List.filter_cons, hX, hY, hA, hB]
  simp [List.take_of_length_le]

/-- The seed extraction behind the C9 witness. -/
theorem fetchAB_seed_map :
    RecommendationEngine.buildSeedMap fetchAB
      (RecommendationEngine.normalizePlaylistWeights
        (RecommendationEngine.toWeightedPlaylists [.url "p"])) [] =
      .ok [⟨"ia", "A", 1⟩, ⟨"ib", "B", 1⟩] := by
  simp only [RecommendationEngine.toWeightedPlaylists,
    RecommendationEngine.normalizePlaylistWeights,
    RecommendationEngine.buildSeedMap, fetchAB,
    SpotifyService.getPlaylistArtists, SpotifyService.addArtist,
    RecommendationEngine.addSeed, List.map, List.foldl, List.sum, List.any,
    String.reduceEq, reduceIte]
  norm_num

/-- C9 witness: the theorem instantiated on the concrete minFrequency-2 run;
the single returned candidate X has frequency ≥ 2, totalFound counts the
filtered list, and the output length respects both bounds. -/
theorem c9_witness :
    2 ≤ (⟨"X", 2, 7/10, 7/5⟩ : AggregatedArtist).frequency
    ∧ (⟨[⟨"ia", "A"⟩, ⟨"ib", "B"⟩], [("p", 100)],
        [⟨"X", 2, 7/10, 7/5⟩], 1⟩ : EngineResult).totalFound =
        (RecommendationEngine.engineFiltered lookupScenario
          [⟨"ia", "A", 1⟩, ⟨"ib", "B", 1⟩]
          (Options.mk none (some 2)).minFrequency).length
    ∧ (⟨[⟨"ia", "A"⟩, ⟨"ib", "B"⟩], [("p", 100)],
        [⟨"X", 2, 7/10, 7/5⟩], 1⟩ : EngineResult).recommendations.length ≤
        (⟨[⟨"ia", "A"⟩, ⟨"ib", "B"⟩], [("p", 100)],
          [⟨"X", 2, 7/10, 7/5⟩], 1⟩ : EngineResult).totalFound
    ∧ (⟨[⟨"ia", "A"⟩, ⟨"ib", "B"⟩], [("p", 100)],
        [⟨"X", 2, 7/10, 7/5⟩], 1⟩ : EngineResult).recommendations.length ≤
        jsOrNat (Options.mk none (some 2)).limit 20 := by
  apply c9_minFrequency_and_totalFound fetchAB lookupScenario [.url "p"]
    ⟨none, some 2⟩ 2 [⟨"ia", "A", 1⟩, ⟨"ib", "B", 1⟩]
  · rfl
  · exact fetchAB_seed_map
  · exact fetchAB_run_minFreq2
  · simp

end BetterRecs
